import Mathlib

/-!
# Web-Manga: `static/js/main.js`

A shallow embedding of the client-side script of the manga reader and the
properties of its lazy image loader, reading-position storage, follow action and
cookie lookup.

JavaScript strings are sequences of characters (`Str`); an attribute that may be
absent, and a value that may be `null`, is an `Option`.
-/

namespace WebManga

/-- A JavaScript string, as the sequence of its characters. -/
abbrev Str := List Char

/-! ## The document: images and the intersection observer -/

/-- An `<img>` element, reduced to the attributes the script reads and writes.
`srcHistory` is a ghost field: every value the script assigned to `img.src`,
oldest first (each such assignment starts a network fetch). -/
structure Img where
  /-- The `loading` attribute. -/
  loading : Option Str
  /-- The `src` attribute. -/
  src : Option Str
  /-- The `data-src` attribute, read by the script as `img.dataset.src`. -/
  dataSrc : Option Str
  /-- The tokens of `img.classList`, in order. -/
  classList : List Str
  /-- Ghost: the values assigned to `img.src` by the script. -/
  srcHistory : List Str
deriving DecidableEq, Repr

/-- An `IntersectionObserverEntry`: the element (its index in the document) and
whether it is reported as intersecting. -/
structure Entry where
  target : Nat
  isIntersecting : Bool
deriving DecidableEq, Repr

/-- The page state the lazy loader works on: the images of the document, in
document order (an element is named by its index), and the set of targets the
`imageObserver` currently watches. -/
structure Page where
  imgs : List Img
  watched : List Nat
deriving DecidableEq, Repr

/-- The value of `img.dataset.src` when it is truthy (present and not the empty
string), which is the test `if (img.dataset.src)` of lines 24 and 41. -/
def datasetSrc (img : Img) : Option Str :=
  match img.dataSrc with
  | some (c :: cs) => some (c :: cs)
  | _ => none

/-- The token `loaded`. -/
def loaded : Str := "loaded".toList

/-- The value `lazy` of the `loading` attribute. -/
def lazyValue : Str := "lazy".toList

/-- The method `classList.add(token)`: the token is appended unless present. -/
def classListAdd (cl : List Str) (token : Str) : List Str :=
  if token ∈ cl then cl else cl ++ [token]

/-- Apply `f` to the element at index `i` (nothing happens when there is none). -/
def modifyAt (f : Img → Img) : Nat → List Img → List Img
  | _, [] => []
  | 0, x :: xs => f x :: xs
  | i + 1, x :: xs => x :: modifyAt f i xs

/-- The method `observer.observe(target)`: a target already watched is not added
again. -/
def observe (watched : List Nat) (target : Nat) : List Nat :=
  if target ∈ watched then watched else watched ++ [target]

/-- The method `observer.unobserve(target)`. -/
def unobserve (watched : List Nat) (target : Nat) : List Nat :=
  watched.filter (fun t => t ≠ target)

/-- Lines 24-27: when `img.dataset.src` is truthy, `img.src = img.dataset.src`
and `img.removeAttribute('data-src')`. -/
def swapSource (img : Img) : Img :=
  match datasetSrc img with
  | some d => { img with src := some d, dataSrc := none, srcHistory := img.srcHistory ++ [d] }
  | none => img

/-- Lines 23-28 on one element: the swap, then `img.classList.add('loaded')`. -/
def markLoaded (img : Img) : Img :=
  let img1 := swapSource img
  { img1 with classList := classListAdd img1.classList loaded }

/-- The body of `entries.forEach` in the observer callback (lines 21-31). -/
def processEntry (p : Page) (e : Entry) : Page :=
  if e.isIntersecting then
    { imgs := modifyAt markLoaded e.target p.imgs
      watched := unobserve p.watched e.target }
  else p

/-- The observer callback (lines 20-32): `entries.forEach(...)`. -/
def observerCallback (p : Page) (entries : List Entry) : Page :=
  entries.foldl processEntry p

/-- A sequence of callback invocations, in order. -/
def runCallbacks (p : Page) (callbacks : List (List Entry)) : Page :=
  callbacks.foldl observerCallback p

/-- The result of `document.querySelectorAll('img[loading="lazy"]')`, as the
indices of the matching images in document order. -/
def lazyImages (imgs : List Img) : List Nat :=
  (List.range imgs.length).filter
    (fun i => decide ((imgs[i]?).bind Img.loading = some lazyValue))

/-- Lines 41-43, the fallback on one element: `img.src = img.dataset.src` when
`img.dataset.src` is truthy; nothing else is touched. -/
def fallbackSwap (img : Img) : Img :=
  match datasetSrc img with
  | some d => { img with src := some d, srcHistory := img.srcHistory ++ [d] }
  | none => img

/-- The function `initLazyLoad` (lines 16-46). `hasIntersectionObserver` is the
test `'IntersectionObserver' in window`; with it, a fresh observer is created
and every lazy image is observed; without it, every lazy image goes through the
fallback. -/
def initLazyLoad (hasIntersectionObserver : Bool) (imgs : List Img) : Page :=
  let images := lazyImages imgs
  if hasIntersectionObserver then
    images.foldl (fun p i => { p with watched := observe p.watched i }) ⟨imgs, []⟩
  else
    images.foldl (fun p i => { p with imgs := modifyAt fallbackSwap i p.imgs }) ⟨imgs, []⟩

/-! ## Strings -/

/-- The method `s.split(sep)` for a one-character separator: the pieces between
the occurrences of `sep` (one more piece than there are occurrences). -/
def split : Str → Char → List Str
  | [], _ => [[]]
  | c :: cs, sep =>
    if c = sep then [] :: split cs sep
    else
      match split cs sep with
      | [] => [[c]]
      | piece :: pieces => (c :: piece) :: pieces

/-- The method `s.includes(sub)`: `sub` occurs somewhere in `s`. -/
def includes : Str → Str → Bool
  | [], sub => sub.isPrefixOf []
  | c :: cs, sub => sub.isPrefixOf (c :: cs) || includes cs sub

/-- The method `s.substring(start, stop)` on non-negative integers: both
positions are clamped to the length and swapped when out of order. -/
def substring (s : Str) (start stop : Nat) : Str :=
  let finalStart := min start s.length
  let finalEnd := min stop s.length
  let lo := min finalStart finalEnd
  let hi := max finalStart finalEnd
  (s.drop lo).take (hi - lo)

/-- The method `s.substring(start)`: up to the end of the string. -/
def substringFrom (s : Str) (start : Nat) : Str :=
  substring s start s.length

/-- The characters removed by `trim`: ECMAScript WhiteSpace and LineTerminator. -/
def isWhiteSpace (c : Char) : Bool :=
  decide (c.toNat ∈ [0x9, 0xA, 0xB, 0xC, 0xD, 0x20, 0xA0, 0x1680, 0x2028, 0x2029,
    0x202F, 0x205F, 0x3000, 0xFEFF]) || (decide (0x2000 ≤ c.toNat) && decide (c.toNat ≤ 0x200A))

/-- The method `s.trim()`. -/
def trim (s : Str) : Str :=
  ((s.dropWhile isWhiteSpace).reverse.dropWhile isWhiteSpace).reverse

/-- The exceptions the modelled code can raise. -/
inductive JsError where
  | uriError
  | typeError
deriving DecidableEq, Repr

deriving instance DecidableEq for Except

/-- The value of a hexadecimal digit. -/
def hexDigit (c : Char) : Option Nat :=
  if '0' ≤ c ∧ c ≤ '9' then some (c.toNat - 48)
  else if 'a' ≤ c ∧ c ≤ 'f' then some (c.toNat - 87)
  else if 'A' ≤ c ∧ c ≤ 'F' then some (c.toNat - 55)
  else none

/-- The octet written by two hexadecimal digits. -/
def hexOctet (a b : Char) : Option Nat :=
  match hexDigit a, hexDigit b with
  | some x, some y => some (16 * x + y)
  | _, _ => none

/-- The octet of an escape whose percent sign has just been read: the next two
characters, when both are there and both are hexadecimal digits. -/
def escapeOctet (rest : Str) : Option Nat :=
  match rest with
  | a :: b :: _ => hexOctet a b
  | _ => none

/-- The loop of the ECMAScript operation Decode with an empty set of preserved
escapes, one character per step. `skip` counts the hexadecimal digits of the
escape just read that are still to be stepped over, `pending` the continuation
octets of a UTF-8 sequence still due, `acc` the bits of its code point read so
far, and `lowest` the smallest code point a sequence of that length may
encode. -/
def decodeLoop (s : Str) (skip pending acc lowest : Nat) : Except JsError Str :=
  match s with
  | [] => if pending = 0 then .ok [] else .error .uriError
  | c :: rest =>
    if skip ≠ 0 then decodeLoop rest (skip - 1) pending acc lowest
    else if c = '%' then
      match escapeOctet rest with
      | none => .error .uriError
      | some octet =>
        if pending = 0 then
          if octet < 0x80 then
            (decodeLoop rest 2 0 0 0).map (fun r => Char.ofNat octet :: r)
          else if 0xC0 ≤ octet ∧ octet < 0xE0 then decodeLoop rest 2 1 (octet - 0xC0) 0x80
          else if 0xE0 ≤ octet ∧ octet < 0xF0 then decodeLoop rest 2 2 (octet - 0xE0) 0x800
          else if 0xF0 ≤ octet ∧ octet < 0xF8 then decodeLoop rest 2 3 (octet - 0xF0) 0x10000
          else .error .uriError
        else if 0x80 ≤ octet ∧ octet < 0xC0 then
          if pending = 1 then
            if lowest ≤ acc * 64 + (octet - 0x80) ∧ acc * 64 + (octet - 0x80) ≤ 0x10FFFF ∧
                ¬ (0xD800 ≤ acc * 64 + (octet - 0x80) ∧ acc * 64 + (octet - 0x80) ≤ 0xDFFF) then
              (decodeLoop rest 2 0 0 0).map
                (fun r => Char.ofNat (acc * 64 + (octet - 0x80)) :: r)
            else .error .uriError
          else decodeLoop rest 2 (pending - 1) (acc * 64 + (octet - 0x80)) lowest
        else .error .uriError
    else if pending = 0 then (decodeLoop rest 0 0 0 0).map (fun r => c :: r)
    else .error .uriError

/-- The global function `decodeURIComponent`: the decoded string, or a
`URIError` on a malformed escape sequence. -/
def decodeURIComponent (s : Str) : Except JsError Str :=
  decodeLoop s 0 0 0 0

/-! ## Reading position in `localStorage` -/

/-- The object `localStorage`, as the list of the `setItem` calls made on it,
newest first; an item's value is that of the newest call for its key. -/
abbrev Storage := List (Str × Str)

/-- The method `localStorage.setItem(key, value)`. -/
def setItem (key value : Str) (ls : Storage) : Storage :=
  (key, value) :: ls

/-- The method `localStorage.getItem(key)`; `none` is `null`. -/
def getItem (key : Str) : Storage → Option Str
  | [] => none
  | (k, v) :: rest => if k = key then some v else getItem key rest

/-! A scroll offset is a JavaScript Number, a double. The model covers the
integer offsets: a natural number stands for the double of that value, and the
functions below give the string `setItem` stores for it, the result of ToString
(ECMAScript Number::toString, radix 10). -/

/-- The loop of `bitLength`: one step per binary digit (`fuel` bounds the
number of steps). -/
def bitLengthLoop : Nat → Nat → Nat
  | 0, _ => 0
  | fuel + 1, v => if v = 0 then 0 else bitLengthLoop fuel (v / 2) + 1

/-- The number of binary digits of `v`. -/
def bitLength (v : Nat) : Nat :=
  bitLengthLoop v v

/-- The Number value of a non-negative integer: the nearest double, ties to the
even significand. Below 2^53 every integer is a double; above, a double keeps
the 53 leading binary digits. -/
def roundToDouble (v : Nat) : Nat :=
  if v < 2 ^ 53 then v
  else
    let e := bitLength v - 53
    let q := v / 2 ^ e
    let r := v % 2 ^ e
    if 2 ^ e < 2 * r ∨ (2 * r = 2 ^ e ∧ q % 2 = 1) then (q + 1) * 2 ^ e else q * 2 ^ e

/-- Whether the natural number is the value of a finite double. -/
def isDoubleValue (n : Nat) : Bool :=
  decide (bitLength n ≤ 1024) && decide (roundToDouble n = n)

/-- The numerals `s * 10 ^ m` with a `k`-digit `s` next to `x` (`s` is `x / 10 ^ m`
rounded down or up) whose Number value is `x`, as pairs `(s, m)`. -/
def numeralsAt (x k m : Nat) : List (Nat × Nat) :=
  ([x / 10 ^ m, x / 10 ^ m + 1].filter fun s =>
    decide (10 ^ (k - 1) ≤ s) && decide (s < 10 ^ k) &&
      decide (roundToDouble (s * 10 ^ m) = x)).map fun s => (s, m)

/-- The numerals with `k` significant digits whose Number value is `x`; the
exponent `m` is at most the number of decimal digits of `x`. -/
def numeralCandidates (x k : Nat) : List (Nat × Nat) :=
  (List.range ((Nat.toDigits 10 x).length + 1)).flatMap (numeralsAt x k)

/-- The distance between `x` and the value of the numeral `c`. -/
def distance (x : Nat) (c : Nat × Nat) : Nat :=
  if c.1 * 10 ^ c.2 ≤ x then x - c.1 * 10 ^ c.2 else c.1 * 10 ^ c.2 - x

/-- Of two numerals the one closer to `x`, and of two equally close the one
with the even `s`. -/
def closer (x : Nat) (a b : Nat × Nat) : Nat × Nat :=
  if distance x b < distance x a ∨ (distance x b = distance x a ∧ b.1 % 2 = 0 ∧ a.1 % 2 = 1)
  then b else a

/-- The numeral of a list that is closest to `x`. -/
def pickClosest (x : Nat) : List (Nat × Nat) → Option (Nat × Nat)
  | [] => none
  | c :: cs => some (cs.foldl (closer x) c)

/-- The integers `s` and `m = n - k` of Number::toString: the numeral
`s * 10 ^ m` with the fewest significant digits `k` whose Number value is `x`
(17 digits always suffice), the closest to `x` when there are several. -/
def shortestNumeral (x : Nat) : Option (Nat × Nat) :=
  (List.range 17).findSome? fun i => pickClosest x (numeralCandidates x (i + 1))

/-- The string a scroll offset is stored as: `setItem` converts its argument
with ToString. For the double of integer value `x` that is the digits of `s`
followed by `m` zeros when the `n = k + m` digits are at most 21, and the
exponential form, the first digit, a point and the other digits when there are
any, then `e+` and `n - 1`, otherwise. (The empty string stands for a value that
is no double, which no offset is.) -/
def numberToString (x : Nat) : Str :=
  if x = 0 then ['0']
  else
    match shortestNumeral x with
    | none => []
    | some (s, m) =>
      let digits := Nat.toDigits 10 s
      let n := digits.length + m
      if n ≤ 21 then digits ++ List.replicate m '0'
      else
        match digits with
        | [] => []
        | d :: rest =>
          if rest = [] then d :: ("e+".toList ++ Nat.toDigits 10 (n - 1))
          else d :: '.' :: (rest ++ ("e+".toList ++ Nat.toDigits 10 (n - 1)))

/-- The template literal of lines 170 and 175: the text reading, an
underscore, the manga identifier, an underscore, the chapter identifier. -/
def readingKey (mangaId chapterId : Str) : Str :=
  "reading_".toList ++ mangaId ++ "_".toList ++ chapterId

/-- The function `saveReadingPosition` (lines 169-172); `scrollPosition` is the
integer value of the Number passed. -/
def saveReadingPosition (mangaId chapterId : Str) (scrollPosition : Nat) (ls : Storage) :
    Storage :=
  let key := readingKey mangaId chapterId
  setItem key (numberToString scrollPosition) ls

/-- The function `getReadingPosition` (lines 174-177). -/
def getReadingPosition (mangaId chapterId : Str) (ls : Storage) : Option Str :=
  let key := readingKey mangaId chapterId
  getItem key ls

/-- The text `/manga/` looked for in the path. -/
def mangaMarker : Str := "/manga/".toList

/-- Line 180: whether the script adds the auto-save scroll listener at load. -/
def autoSaveRegistered (pathname : Str) : Bool :=
  includes pathname mangaMarker

/-- The auto-save scroll listener (lines 181-188); `pageYOffset` is the integer
value of `window.pageYOffset`. -/
def autoSaveOnScroll (pathname : Str) (pageYOffset : Nat) (ls : Storage) : Storage :=
  let path := split pathname '/'
  if path.length ≥ 4 then
    let mangaSlug := path.getD 2 []
    let chapterSlug := path.getD 3 []
    saveReadingPosition mangaSlug chapterSlug pageYOffset ls
  else ls

/-- What one scroll event does to `localStorage` on a page loaded at `pathname`:
the listener runs when line 180 registered it. -/
def scrollEvent (pathname : Str) (pageYOffset : Nat) (ls : Storage) : Storage :=
  if autoSaveRegistered pathname then autoSaveOnScroll pathname pageYOffset ls else ls

/-- Lines 297-300: whether the script calls `initReadingProgress`, which creates
the progress bar, at load. -/
def readingProgressStarted (pathname : Str) : Bool :=
  includes pathname mangaMarker && decide ((split pathname '/').length > 3)

/-! ## Cookies and the follow action -/

/-- The loop of `getCookie` (lines 263-269) over the pieces of the cookie
string still to visit; `none` is the initial `null` of `cookieValue`. -/
def getCookieLoop (name : Str) : List Str → Except JsError (Option Str)
  | [] => .ok none
  | piece :: rest =>
    let cookie := trim piece
    if substring cookie 0 (name.length + 1) = name ++ ['='] then
      (decodeURIComponent (substringFrom cookie (name.length + 1))).map some
    else getCookieLoop name rest

/-- The function `getCookie` (lines 259-272) on the value of `document.cookie`. -/
def getCookie (name : Str) (documentCookie : Str) : Except JsError (Option Str) :=
  if documentCookie ≠ [] then getCookieLoop name (split documentCookie ';')
  else .ok none

/-- The cookie name read by the follow action. -/
def csrftoken : Str := "csrftoken".toList

/-- A value produced by `response.json()`. Numbers are integers here. -/
inductive Json where
  | null
  | bool (b : Bool)
  | num (n : Int)
  | str (s : Str)
  | arr (items : List Json)
  | obj (members : List (Str × Json))

/-- ToBoolean on a JSON value. -/
def Json.truthy : Json → Bool
  | .null => false
  | .bool b => b
  | .num n => decide (n ≠ 0)
  | .str s => decide (s ≠ [])
  | .arr _ => true
  | .obj _ => true

/-- The member of an object with the given name; of several, the last. -/
def lookupMember (key : Str) : List (Str × Json) → Option Json
  | [] => none
  | (k, v) :: rest =>
    match lookupMember key rest with
    | some w => some w
    | none => if k = key then some v else none

/-- The property read `data.success`: a `TypeError` on `null`, the member of an
object, and `undefined` (`none`) on every other value. -/
def readSuccess : Json → Except JsError (Option Json)
  | .null => .error .typeError
  | .obj members => .ok (lookupMember "success".toList members)
  | _ => .ok none

/-- How the promise returned by `fetch` settles: it rejects, or it resolves to a
response whose `json()` yields a value or rejects (`none`). -/
inductive FetchOutcome where
  | rejected
  | resolved (json : Option Json)

/-- A call of `fetch`. A header value is the JavaScript value passed for it. -/
structure Request where
  url : Str
  method : Str
  headers : List (Str × Option Str)
deriving DecidableEq, Repr

/-- What a call of `handleFollowAction` does: the `fetch` calls made, the number
of `location.reload()` calls, the number of `console.error` calls, and the
exception leaving the function, if one does. -/
structure FollowEffects where
  requests : List Request
  reloads : Nat
  logged : Nat
  thrown : Option JsError
deriving DecidableEq, Repr

/-- The function `handleFollowAction` (lines 241-256), run until its promise
chain has settled. The options of `fetch` are built first, which calls
`getCookie('csrftoken')`; an exception there leaves the function before `fetch`
is called. -/
def handleFollowAction (mangaId : Str) (_isFollowing : Bool) (documentCookie : Str)
    (outcome : FetchOutcome) : FollowEffects :=
  match getCookie csrftoken documentCookie with
  | .error e => { requests := [], reloads := 0, logged := 0, thrown := some e }
  | .ok token =>
    let request : Request :=
      { url := "/follow/".toList ++ mangaId ++ "/".toList
        method := "POST".toList
        headers := [("X-CSRFToken".toList, token),
                    ("Content-Type".toList, some "application/json".toList)] }
    match outcome with
    | .rejected => { requests := [request], reloads := 0, logged := 1, thrown := none }
    | .resolved none => { requests := [request], reloads := 0, logged := 1, thrown := none }
    | .resolved (some data) =>
      match readSuccess data with
      | .error _ => { requests := [request], reloads := 0, logged := 1, thrown := none }
      | .ok success =>
        if (success.map Json.truthy).getD false then
          { requests := [request], reloads := 1, logged := 0, thrown := none }
        else { requests := [request], reloads := 0, logged := 0, thrown := none }

/-- An image with the given `data-src`, no `src` and no class, flagged lazy. -/
def pendingImg (d : Str) : Img :=
  { loading := some lazyValue, src := none, dataSrc := some d, classList := [], srcHistory := [] }

/-- The image `i` of the page has been swapped to the source `d`: its `src` is
`d`, it has no `data-src`, it carries the class `loaded`, and the observer does
not watch it. -/
def Swapped (p : Page) (i : Nat) (d : Str) : Prop :=
  ∃ img, p.imgs[i]? = some img ∧ img.src = some d ∧ img.dataSrc = none ∧
    loaded ∈ img.classList ∧ i ∉ p.watched

/-- The number of assignments to `img.src` the script has made on image `i`. -/
def srcWrites (p : Page) (i : Nat) : Nat :=
  match p.imgs[i]? with
  | some img => img.srcHistory.length
  | none => 0

/-- The assignments to `img.src` made on an image, plus one when it still has
a truthy `data-src`. -/
def swapBudget (o : Option Img) : Nat :=
  match o with
  | some img => img.srcHistory.length + (if (datasetSrc img).isSome then 1 else 0)
  | none => 0

/-- The manga-reader shape of a path as the specification words it,
`/manga/{slug}/{chapterSlug}/...`: split on the slash, the path starts with an
empty piece, the piece `manga`, a manga slug and a chapter slug. -/
def isReaderShape (pathname : Str) : Bool :=
  match split pathname '/' with
  | first :: second :: slug :: chapterSlug :: _ =>
    decide (first = []) && decide (second = "manga".toList) && decide (slug ≠ []) &&
      decide (chapterSlug ≠ [])
  | _ => false

/-- The test a cookie pair passes in the words of the specification: its
trimmed text starts with the name followed by the equals sign. -/
def cookieMatches (name pair : Str) : Bool :=
  (name ++ ['=']).isPrefixOf pair

/-- The name of a cookie pair: its text before the first equals sign. -/
def cookieName (pair : Str) : Str :=
  pair.takeWhile (fun c => decide (c ≠ '='))

/-- The pairs of a cookie string: its pieces between semicolons, trimmed. -/
def cookiePairs (documentCookie : Str) : List Str :=
  (split documentCookie ';').map trim

/-- The result of the cookie lookup in the words of the specification: the text
after the name and the equals sign in the first pair that passes the test, and
`none` (`null`) when no pair does. -/
def firstCookieValue (name documentCookie : Str) : Option Str :=
  ((cookiePairs documentCookie).find? (cookieMatches name)).map
    (fun pair => pair.drop (name.length + 1))

/-! ## Evaluation on concrete inputs -/

example : (processEntry ⟨[pendingImg "/img/a.jpg".toList], [0]⟩ ⟨0, true⟩)
    = ⟨[{ loading := some lazyValue, src := some "/img/a.jpg".toList, dataSrc := none,
          classList := [loaded], srcHistory := ["/img/a.jpg".toList] }], []⟩ := by decide

example : (initLazyLoad true [pendingImg "/img/a.jpg".toList]).watched = [0] := by decide

example : (initLazyLoad false [pendingImg "/a".toList]).imgs
    = [{ pendingImg "/a".toList with src := some "/a".toList, srcHistory := ["/a".toList] }] := by
  decide


example : split "/manga/one-piece/chapter-5".toList '/' =
    ["".toList, "manga".toList, "one-piece".toList, "chapter-5".toList] := by decide
example : split "a;;b".toList ';' = ["a".toList, [], "b".toList] := by decide
example : includes "/x/manga/y".toList mangaMarker = true := by decide
example : includes "/mangas/y".toList mangaMarker = false := by decide
example : trim " a b \t".toList = "a b".toList := by decide
example : decodeURIComponent "a%20b".toList = .ok "a b".toList := by decide
example : decodeURIComponent "%E2%82%AC".toList = .ok "€".toList := by decide
example : decodeURIComponent "%".toList = .error .uriError := by decide
example : decodeURIComponent "%C0%80".toList = .error .uriError := by decide
example : decodeURIComponent "%ED%A0%80".toList = .error .uriError := by decide
example : decodeURIComponent "%F0%9F%98%80".toList = .ok "😀".toList := by decide
example : decodeURIComponent "%E2%82".toList = .error .uriError := by decide
example : decodeURIComponent "%E2x%82%AC".toList = .error .uriError := by decide
example : decodeURIComponent "%4".toList = .error .uriError := by decide
example : decodeURIComponent "%zz".toList = .error .uriError := by decide
example : decodeURIComponent "%80".toList = .error .uriError := by decide
example : decodeURIComponent "%F4%90%80%80".toList = .error .uriError := by decide
example : decodeURIComponent "%41%2fb%25".toList = .ok "A/b%".toList := by decide
example : numberToString 1200 = "1200".toList := by decide
example : numberToString 0 = "0".toList := by decide
example : numberToString (2 ^ 53 + 2) = "9007199254740994".toList := by decide
example : numberToString (2 ^ 60) = "1152921504606847000".toList := by decide
set_option maxRecDepth 8000 in
example : numberToString (2 ^ 69) = "590295810358705700000".toList := by decide
set_option maxRecDepth 8000 in
example : numberToString (10 ^ 21) = "1e+21".toList := by decide
set_option maxRecDepth 8000 in
example : numberToString 99999999999999991611392 = "1e+23".toList := by decide
set_option maxRecDepth 8000 in
example : numberToString 123456789012345685803008 = "1.2345678901234569e+23".toList := by decide
example : roundToDouble (2 ^ 60 + 1) = 2 ^ 60 := by decide
example : isDoubleValue (2 ^ 53 + 1) = false := by decide
example : getCookie "csrftoken".toList "a=1; csrftoken=abc; b=2".toList = .ok (some "abc".toList) := by
  decide
example : getCookie "csrftoken".toList "csrftoken2=abc".toList = .ok none := by decide
example : getCookie "csrftoken".toList "csrftoken=%".toList = .error .uriError := by decide
example : (handleFollowAction "42".toList true "csrftoken=abc".toList
    (.resolved (some (.obj [("success".toList, .bool true)])))).reloads = 1 := by decide
example : scrollEvent "/manga/one-piece/chapter-5".toList 1200 [] =
    [("reading_one-piece_chapter-5".toList, "1200".toList)] := by decide
example : readingProgressStarted "/user/manga/x".toList = true := by decide

/-! ## Lazy image loader: lemmas -/

theorem modifyAt_getElem? (f : Img → Img) (i j : Nat) (l : List Img) :
    (modifyAt f i l)[j]? = if j = i then (l[j]?).map f else l[j]? := by
  induction l generalizing i j with
  | nil => simp [modifyAt]
  | cons x xs ih =>
    cases i with
    | zero =>
      cases j with
      | zero => simp [modifyAt]
      | succ j => simp [modifyAt]
    | succ i =>
      cases j with
      | zero => simp [modifyAt]
      | succ j => simp [modifyAt, ih]

theorem mem_unobserve (w : List Nat) (t j : Nat) :
    j ∈ unobserve w t ↔ j ∈ w ∧ j ≠ t := by
  simp [unobserve]

theorem mem_observe (w : List Nat) (t j : Nat) :
    j ∈ observe w t ↔ j ∈ w ∨ j = t := by
  unfold observe
  split
  · constructor
    · intro h; exact Or.inl h
    · rintro (h | rfl)
      · exact h
      · assumption
  · simp

theorem processEntry_not_intersecting (p : Page) (t : Nat) :
    processEntry p ⟨t, false⟩ = p := by
  simp [processEntry]

theorem processEntry_other_img (p : Page) (e : Entry) (i : Nat) (h : e.target ≠ i) :
    (processEntry p e).imgs[i]? = p.imgs[i]? := by
  unfold processEntry
  split
  · simp [modifyAt_getElem?, Ne.symm h]
  · rfl

theorem processEntry_other_watched (p : Page) (e : Entry) (i : Nat) (h : e.target ≠ i) :
    i ∈ (processEntry p e).watched ↔ i ∈ p.watched := by
  unfold processEntry
  split
  · simp [mem_unobserve, Ne.symm h]
  · rfl

theorem processEntry_watched_subset (p : Page) (e : Entry) (j : Nat)
    (h : j ∈ (processEntry p e).watched) : j ∈ p.watched := by
  unfold processEntry at h
  split at h
  · exact ((mem_unobserve _ _ _).1 h).1
  · exact h

theorem processEntry_intersecting_img (p : Page) (i : Nat) :
    (processEntry p ⟨i, true⟩).imgs[i]? = (p.imgs[i]?).map markLoaded := by
  simp [processEntry, modifyAt_getElem?]

theorem processEntry_intersecting_unwatched (p : Page) (i : Nat) :
    i ∉ (processEntry p ⟨i, true⟩).watched := by
  simp [processEntry, mem_unobserve]

theorem datasetSrc_swapSource (img : Img) : datasetSrc (swapSource img) = none := by
  unfold swapSource
  split
  · simp [datasetSrc]
  · assumption

theorem markLoaded_markLoaded (img : Img) : markLoaded (markLoaded img) = markLoaded img := by
  have h1 : datasetSrc (markLoaded img) = none := by
    have := datasetSrc_swapSource img
    simpa [markLoaded, datasetSrc] using this
  have h2 : loaded ∈ (markLoaded img).classList := by
    simp only [markLoaded, classListAdd]
    split
    · assumption
    · simp
  have h3 : swapSource (markLoaded img) = markLoaded img := by
    unfold swapSource; rw [h1]
  show ({ swapSource (markLoaded img) with
    classList := classListAdd (swapSource (markLoaded img)).classList loaded } : Img) = _
  rw [h3, classListAdd, if_pos h2]

/-- Every step of the callback maps the image `i` either to itself or to its
`markLoaded` form. -/
theorem processEntry_img_cases (p : Page) (e : Entry) (i : Nat) :
    (processEntry p e).imgs[i]? = p.imgs[i]? ∨
      (processEntry p e).imgs[i]? = (p.imgs[i]?).map markLoaded := by
  unfold processEntry
  split
  · by_cases h : i = e.target
    · right; simp [modifyAt_getElem?, h]
    · left; simp [modifyAt_getElem?, h]
  · left; rfl

theorem markLoaded_pending (img : Img) (d : Str) (h : img.dataSrc = some d) (hd : d ≠ []) :
    (markLoaded img).src = some d ∧ (markLoaded img).dataSrc = none ∧
      loaded ∈ (markLoaded img).classList := by
  obtain ⟨c, cs, rfl⟩ : ∃ c cs, d = c :: cs := by
    cases d with
    | nil => exact absurd rfl hd
    | cons c cs => exact ⟨c, cs, rfl⟩
  have hs : datasetSrc img = some (c :: cs) := by simp [datasetSrc, h]
  refine ⟨?_, ?_, ?_⟩
  · simp [markLoaded, swapSource, hs]
  · simp [markLoaded, swapSource, hs]
  · simp only [markLoaded, classListAdd]
    split
    · assumption
    · simp

theorem markLoaded_settled (img : Img) (h : img.dataSrc = none) :
    (markLoaded img).src = img.src ∧ (markLoaded img).dataSrc = none ∧
      loaded ∈ (markLoaded img).classList := by
  have hs : datasetSrc img = none := by simp [datasetSrc, h]
  refine ⟨?_, ?_, ?_⟩
  · simp [markLoaded, swapSource, hs]
  · simp [markLoaded, swapSource, hs, h]
  · simp only [markLoaded, classListAdd]
    split
    · assumption
    · simp

theorem swapped_processEntry {p : Page} {i : Nat} {d : Str} (h : Swapped p i d) (e : Entry) :
    Swapped (processEntry p e) i d := by
  obtain ⟨img, hi, hsrc, hds, hl, hw⟩ := h
  have hw' : i ∉ (processEntry p e).watched :=
    fun hmem => hw (processEntry_watched_subset p e i hmem)
  rcases processEntry_img_cases p e i with hc | hc
  · exact ⟨img, by rw [hc, hi], hsrc, hds, hl, hw'⟩
  · obtain ⟨h1, h2, h3⟩ := markLoaded_settled img hds
    exact ⟨markLoaded img, by rw [hc, hi]; rfl, by rw [h1, hsrc], h2, h3, hw'⟩

theorem swapped_observerCallback {p : Page} {i : Nat} {d : Str} (h : Swapped p i d)
    (entries : List Entry) : Swapped (observerCallback p entries) i d := by
  induction entries generalizing p with
  | nil => exact h
  | cons e es ih => exact ih (swapped_processEntry h e)

theorem observerCallback_cons (p : Page) (e : Entry) (es : List Entry) :
    observerCallback p (e :: es) = observerCallback (processEntry p e) es := rfl

theorem runCallbacks_cons (p : Page) (cb : List Entry) (cbs : List (List Entry)) :
    runCallbacks p (cb :: cbs) = runCallbacks (observerCallback p cb) cbs := rfl

/-- C1. In the observer path, when the callback receives an intersecting entry
for an image with a non-empty `data-src`, then after the callback the image's
`src` is the former `data-src`, it has no `data-src` attribute, its class list
contains `loaded`, and the observer no longer watches it. -/
theorem lazy_swap_on_intersection (p : Page) (entries : List Entry) (i : Nat) (img : Img)
    (d : Str) (himg : p.imgs[i]? = some img) (hsrc : img.dataSrc = some d) (hd : d ≠ [])
    (hentry : ∃ e ∈ entries, e.target = i ∧ e.isIntersecting = true) :
    ∃ img', (observerCallback p entries).imgs[i]? = some img' ∧ img'.src = some d ∧
      img'.dataSrc = none ∧ loaded ∈ img'.classList ∧
      i ∉ (observerCallback p entries).watched := by
  induction entries generalizing p with
  | nil =>
    obtain ⟨e, he, _⟩ := hentry
    cases he
  | cons e es ih =>
    rw [observerCallback_cons]
    by_cases hhit : e.target = i ∧ e.isIntersecting = true
    · have he : e = ⟨i, true⟩ := by
        cases e; simp only [Entry.mk.injEq]; exact hhit
      subst he
      obtain ⟨h1, h2, h3⟩ := markLoaded_pending img d hsrc hd
      have hsw : Swapped (processEntry p ⟨i, true⟩) i d :=
        ⟨markLoaded img, by rw [processEntry_intersecting_img, himg]; rfl, h1, h2, h3,
          processEntry_intersecting_unwatched p i⟩
      exact swapped_observerCallback hsw es
    · have hkeep : (processEntry p e).imgs[i]? = some img := by
        by_cases ht : e.target = i
        · have hf : e.isIntersecting = false := by
            cases hb : e.isIntersecting with
            | true => exact absurd ⟨ht, hb⟩ hhit
            | false => rfl
          have : processEntry p e = p := by simp [processEntry, hf]
          rw [this, himg]
        · rw [processEntry_other_img p e i ht, himg]
      apply ih (processEntry p e) hkeep
      obtain ⟨e', hmem, he'⟩ := hentry
      rcases List.mem_cons.1 hmem with rfl | hmem'
      · exact absurd he' hhit
      · exact ⟨e', hmem', he'⟩

/-- Witness of C1: the scenario of the specification, an image with the pending
source `/img/a.jpg` and no `src` whose entry is reported intersecting. -/
theorem lazy_swap_on_intersection_witness :
    ∃ img', (observerCallback ⟨[pendingImg "/img/a.jpg".toList], [0]⟩ [⟨0, true⟩]).imgs[0]?
        = some img' ∧ img'.src = some "/img/a.jpg".toList ∧
      img'.dataSrc = none ∧ loaded ∈ img'.classList ∧
      0 ∉ (observerCallback ⟨[pendingImg "/img/a.jpg".toList], [0]⟩ [⟨0, true⟩]).watched :=
  lazy_swap_on_intersection ⟨[pendingImg "/img/a.jpg".toList], [0]⟩ [⟨0, true⟩] 0
    (pendingImg "/img/a.jpg".toList) "/img/a.jpg".toList rfl rfl (by decide)
    ⟨⟨0, true⟩, by decide, rfl, rfl⟩

/-- C5. In the observer path, an intersecting entry for an image whose
`data-src` is absent or empty attempts no swap: `src`, `data-src` and the
history of `src` assignments are as before (only the class `loaded` is added),
and the image is removed from the watched set. -/
theorem lazy_no_pending_source (p : Page) (i : Nat) (img : Img)
    (himg : p.imgs[i]? = some img) (hsrc : img.dataSrc = none ∨ img.dataSrc = some []) :
    (processEntry p ⟨i, true⟩).imgs[i]?
        = some { img with classList := classListAdd img.classList loaded } ∧
      i ∉ (processEntry p ⟨i, true⟩).watched := by
  refine ⟨?_, processEntry_intersecting_unwatched p i⟩
  have hs : datasetSrc img = none := by
    rcases hsrc with h | h <;> simp [datasetSrc, h]
  rw [processEntry_intersecting_img, himg]
  simp [markLoaded, swapSource, hs]

/-- Witness of C5: an image with an empty `data-src` and a prior `src`. -/
theorem lazy_no_pending_source_witness :
    (processEntry ⟨[{ pendingImg [] with src := some "/p.png".toList }], [0]⟩ ⟨0, true⟩).imgs[0]?
        = some { ({ pendingImg [] with src := some "/p.png".toList } : Img) with
            classList := classListAdd
              ({ pendingImg [] with src := some "/p.png".toList } : Img).classList loaded } ∧
      0 ∉ (processEntry ⟨[{ pendingImg [] with src := some "/p.png".toList }], [0]⟩
        ⟨0, true⟩).watched :=
  lazy_no_pending_source ⟨[{ pendingImg [] with src := some "/p.png".toList }], [0]⟩ 0
    { pendingImg [] with src := some "/p.png".toList } rfl (Or.inr rfl)

theorem observerCallback_img_fixed (p : Page) (i : Nat) (entries : List Entry)
    (h : (p.imgs[i]?).map markLoaded = p.imgs[i]?) :
    (observerCallback p entries).imgs[i]? = p.imgs[i]? := by
  induction entries generalizing p with
  | nil => rfl
  | cons e es ih =>
    rw [observerCallback_cons]
    have hstep : (processEntry p e).imgs[i]? = p.imgs[i]? := by
      rcases processEntry_img_cases p e i with hc | hc
      · exact hc
      · rw [hc, h]
    rw [ih (processEntry p e) (by rw [hstep, h]), hstep]

theorem runCallbacks_img_fixed (p : Page) (i : Nat) (callbacks : List (List Entry))
    (h : (p.imgs[i]?).map markLoaded = p.imgs[i]?) :
    (runCallbacks p callbacks).imgs[i]? = p.imgs[i]? := by
  induction callbacks generalizing p with
  | nil => rfl
  | cons cb cbs ih =>
    rw [runCallbacks_cons]
    have hstep := observerCallback_img_fixed p i cb h
    rw [ih (observerCallback p cb) (by rw [hstep, h]), hstep]

theorem observerCallback_watched_subset (p : Page) (entries : List Entry) (j : Nat)
    (h : j ∈ (observerCallback p entries).watched) : j ∈ p.watched := by
  induction entries generalizing p with
  | nil => exact h
  | cons e es ih =>
    rw [observerCallback_cons] at h
    exact processEntry_watched_subset p e j (ih (processEntry p e) h)

theorem runCallbacks_watched_subset (p : Page) (callbacks : List (List Entry)) (j : Nat)
    (h : j ∈ (runCallbacks p callbacks).watched) : j ∈ p.watched := by
  induction callbacks generalizing p with
  | nil => exact h
  | cons cb cbs ih =>
    rw [runCallbacks_cons] at h
    exact observerCallback_watched_subset p cb j (ih (observerCallback p cb) h)

theorem swapBudget_markLoaded (o : Option Img) :
    swapBudget (o.map markLoaded) = swapBudget o := by
  cases o with
  | none => rfl
  | some img =>
    have h1 : datasetSrc (markLoaded img) = none := by
      have := datasetSrc_swapSource img
      simpa [markLoaded, datasetSrc] using this
    simp only [Option.map_some', swapBudget, h1]
    cases hs : datasetSrc img with
    | none => simp [markLoaded, swapSource, hs]
    | some d => simp [markLoaded, swapSource, hs]

theorem observerCallback_swapBudget (p : Page) (i : Nat) (entries : List Entry) :
    swapBudget ((observerCallback p entries).imgs[i]?) = swapBudget (p.imgs[i]?) := by
  induction entries generalizing p with
  | nil => rfl
  | cons e es ih =>
    rw [observerCallback_cons, ih (processEntry p e)]
    rcases processEntry_img_cases p e i with hc | hc
    · rw [hc]
    · rw [hc, swapBudget_markLoaded]

theorem runCallbacks_swapBudget (p : Page) (i : Nat) (callbacks : List (List Entry)) :
    swapBudget ((runCallbacks p callbacks).imgs[i]?) = swapBudget (p.imgs[i]?) := by
  induction callbacks generalizing p with
  | nil => rfl
  | cons cb cbs ih =>
    rw [runCallbacks_cons, ih (observerCallback p cb), observerCallback_swapBudget]

theorem srcWrites_le_swapBudget (p : Page) (i : Nat) :
    srcWrites p i ≤ swapBudget (p.imgs[i]?) ∧ swapBudget (p.imgs[i]?) ≤ srcWrites p i + 1 := by
  unfold srcWrites swapBudget
  cases p.imgs[i]? with
  | none => simp
  | some img =>
    simp only
    split <;> omega

/-- C3. Idempotence of the lazy-load callback. Once an intersecting entry for
image `i` has been processed, no later sequence of callbacks changes the image
(its `src`, `data-src`, class list and the history of `src` assignments stay as
they were) and the image stays out of the watched set; over any sequence of
callbacks from any page, `src` is assigned at most once more per image, and no
target enters the watched set. -/
theorem lazy_callback_idempotent (p : Page) (i : Nat) (callbacks : List (List Entry)) :
    (runCallbacks (processEntry p ⟨i, true⟩) callbacks).imgs[i]?
        = (processEntry p ⟨i, true⟩).imgs[i]? ∧
      i ∉ (runCallbacks (processEntry p ⟨i, true⟩) callbacks).watched ∧
      srcWrites (runCallbacks p callbacks) i ≤ srcWrites p i + 1 ∧
      srcWrites (runCallbacks (processEntry p ⟨i, true⟩) callbacks) i
        = srcWrites (processEntry p ⟨i, true⟩) i ∧
      ∀ j, j ∈ (runCallbacks p callbacks).watched → j ∈ p.watched := by
  have hfix : ((processEntry p ⟨i, true⟩).imgs[i]?).map markLoaded
      = (processEntry p ⟨i, true⟩).imgs[i]? := by
    rw [processEntry_intersecting_img]
    cases p.imgs[i]? with
    | none => rfl
    | some img => simp [markLoaded_markLoaded]
  have himg := runCallbacks_img_fixed (processEntry p ⟨i, true⟩) i callbacks hfix
  refine ⟨himg, ?_, ?_, ?_, ?_⟩
  · intro hmem
    exact processEntry_intersecting_unwatched p i
      (runCallbacks_watched_subset _ callbacks i hmem)
  · have h1 := (srcWrites_le_swapBudget (runCallbacks p callbacks) i).1
    have h2 := (srcWrites_le_swapBudget p i).2
    rw [runCallbacks_swapBudget] at h1
    omega
  · unfold srcWrites
    rw [himg]
  · intro j hj
    exact runCallbacks_watched_subset p callbacks j hj

theorem processEntry_quiet (p : Page) (e : Entry) (i : Nat)
    (h : e.target = i → e.isIntersecting = false) :
    (processEntry p e).imgs[i]? = p.imgs[i]? ∧
      (i ∈ (processEntry p e).watched ↔ i ∈ p.watched) := by
  by_cases ht : e.target = i
  · have : processEntry p e = p := by simp [processEntry, h ht]
    rw [this]; exact ⟨rfl, Iff.rfl⟩
  · exact ⟨processEntry_other_img p e i ht, processEntry_other_watched p e i ht⟩

theorem observerCallback_quiet (p : Page) (entries : List Entry) (i : Nat)
    (h : ∀ e ∈ entries, e.target = i → e.isIntersecting = false) :
    (observerCallback p entries).imgs[i]? = p.imgs[i]? ∧
      (i ∈ (observerCallback p entries).watched ↔ i ∈ p.watched) := by
  induction entries generalizing p with
  | nil => exact ⟨rfl, Iff.rfl⟩
  | cons e es ih =>
    rw [observerCallback_cons]
    obtain ⟨h1, h2⟩ := processEntry_quiet p e i (h e (List.mem_cons_self _ _))
    obtain ⟨h3, h4⟩ := ih (processEntry p e) (fun e' he' => h e' (List.mem_cons_of_mem _ he'))
    exact ⟨h3.trans h1, h4.trans h2⟩

theorem runCallbacks_quiet (p : Page) (callbacks : List (List Entry)) (i : Nat)
    (h : ∀ cb ∈ callbacks, ∀ e ∈ cb, e.target = i → e.isIntersecting = false) :
    (runCallbacks p callbacks).imgs[i]? = p.imgs[i]? ∧
      (i ∈ (runCallbacks p callbacks).watched ↔ i ∈ p.watched) := by
  induction callbacks generalizing p with
  | nil => exact ⟨rfl, Iff.rfl⟩
  | cons cb cbs ih =>
    rw [runCallbacks_cons]
    obtain ⟨h1, h2⟩ := observerCallback_quiet p cb i (h cb (List.mem_cons_self _ _))
    obtain ⟨h3, h4⟩ :=
      ih (observerCallback p cb) (fun cb' hcb' => h cb' (List.mem_cons_of_mem _ hcb'))
    exact ⟨h3.trans h1, h4.trans h2⟩

theorem observeAll_spec (images : List Nat) (p : Page) (j : Nat) :
    (images.foldl (fun p i => { p with watched := observe p.watched i }) p).imgs = p.imgs ∧
      (j ∈ (images.foldl (fun p i => { p with watched := observe p.watched i }) p).watched
        ↔ j ∈ p.watched ∨ j ∈ images) := by
  induction images generalizing p with
  | nil => simp
  | cons a as ih =>
    simp only [List.foldl_cons]
    obtain ⟨h1, h2⟩ := ih { p with watched := observe p.watched a }
    refine ⟨h1, ?_⟩
    rw [h2, mem_observe, List.mem_cons]
    tauto

theorem initLazyLoad_observer (imgs : List Img) (j : Nat) :
    (initLazyLoad true imgs).imgs = imgs ∧
      (j ∈ (initLazyLoad true imgs).watched ↔ j ∈ lazyImages imgs) := by
  have h := observeAll_spec (lazyImages imgs) ⟨imgs, []⟩ j
  simp only [initLazyLoad, if_true]
  refine ⟨h.1, ?_⟩
  rw [h.2]
  simp

/-- C4. In the observer path an entry that is not intersecting has no effect;
`initLazyLoad` itself changes no image and watches every lazy image; as long as
no entry for image `i` is reported intersecting, no sequence of callbacks
changes image `i` (so its `src` is the one of the document) and it stays
watched; and processing an entry for another image changes neither the state of
image `i` nor whether it is watched. -/
theorem lazy_no_effect_until_intersecting (imgs : List Img) (p : Page) (i : Nat)
    (callbacks : List (List Entry))
    (hquiet : ∀ cb ∈ callbacks, ∀ e ∈ cb, e.target = i → e.isIntersecting = false) :
    (∀ t, processEntry p ⟨t, false⟩ = p) ∧
      (initLazyLoad true imgs).imgs = imgs ∧
      ((runCallbacks p callbacks).imgs[i]? = p.imgs[i]? ∧
        (i ∈ (runCallbacks p callbacks).watched ↔ i ∈ p.watched)) ∧
      ((runCallbacks (initLazyLoad true imgs) callbacks).imgs[i]? = imgs[i]? ∧
        (i ∈ (runCallbacks (initLazyLoad true imgs) callbacks).watched
          ↔ i ∈ lazyImages imgs)) ∧
      ∀ e : Entry, e.target ≠ i →
        (processEntry p e).imgs[i]? = p.imgs[i]? ∧
          (i ∈ (processEntry p e).watched ↔ i ∈ p.watched) := by
  refine ⟨processEntry_not_intersecting p, (initLazyLoad_observer imgs i).1,
    runCallbacks_quiet p callbacks i hquiet, ?_, ?_⟩
  · obtain ⟨h1, h2⟩ := runCallbacks_quiet (initLazyLoad true imgs) callbacks i hquiet
    obtain ⟨h3, h4⟩ := initLazyLoad_observer imgs i
    exact ⟨by rw [h1, h3], h2.trans h4⟩
  · intro e he
    exact ⟨processEntry_other_img p e i he, processEntry_other_watched p e i he⟩

/-- Witness of C4: two pending images, callbacks that report image 0 as not
intersecting and image 1 as intersecting; image 0 is untouched. -/
theorem lazy_no_effect_until_intersecting_witness :
    (∀ cb ∈ [[(⟨0, false⟩ : Entry), ⟨1, true⟩], [⟨0, false⟩]], ∀ e ∈ cb,
        e.target = 0 → e.isIntersecting = false) ∧
      (runCallbacks (initLazyLoad true [pendingImg "/a.jpg".toList, pendingImg "/b.jpg".toList])
          [[⟨0, false⟩, ⟨1, true⟩], [⟨0, false⟩]]).imgs[0]?
        = [pendingImg "/a.jpg".toList, pendingImg "/b.jpg".toList][0]? :=
  ⟨by decide,
    (lazy_no_effect_until_intersecting
      [pendingImg "/a.jpg".toList, pendingImg "/b.jpg".toList]
      (initLazyLoad true [pendingImg "/a.jpg".toList, pendingImg "/b.jpg".toList]) 0
      [[⟨0, false⟩, ⟨1, true⟩], [⟨0, false⟩]] (by decide)).2.2.2.1.1⟩

theorem fallbackSwap_keeps (img : Img) :
    (fallbackSwap img).dataSrc = img.dataSrc ∧ (fallbackSwap img).classList = img.classList := by
  unfold fallbackSwap
  split <;> exact ⟨rfl, rfl⟩

theorem fallbackAll_keeps (images : List Nat) (p : Page) (j : Nat) :
    ((images.foldl (fun p i => { p with imgs := modifyAt fallbackSwap i p.imgs }) p).imgs[j]?).map
        (fun img => (img.dataSrc, img.classList))
      = (p.imgs[j]?).map (fun img => (img.dataSrc, img.classList)) := by
  induction images generalizing p with
  | nil => rfl
  | cons a as ih =>
    simp only [List.foldl_cons]
    rw [ih]
    simp only [modifyAt_getElem?]
    split
    · cases p.imgs[j]? with
      | none => rfl
      | some img => simp [(fallbackSwap_keeps img).1, (fallbackSwap_keeps img).2]
    · rfl

/-- The fallback branch of `initLazyLoad` leaves the `data-src` attribute and
the class list of every image as they were. -/
theorem initLazyLoad_fallback_keeps (imgs : List Img) (j : Nat) :
    (((initLazyLoad false imgs).imgs[j]?).map (fun img => (img.dataSrc, img.classList)))
      = (imgs[j]?).map (fun img => (img.dataSrc, img.classList)) := by
  have h := fallbackAll_keeps (lazyImages imgs) ⟨imgs, []⟩ j
  simpa [initLazyLoad] using h

/-- C2, evaluated on the code. Without `IntersectionObserver`, a lazy image
with the pending source `/img/a.jpg` gets that `src`, but its `data-src` is
still `/img/a.jpg` after `initLazyLoad` and it has no class `loaded`: the
fallback does not consume the pending source, which lines 26 and 28 of the
observer path do. -/
theorem initLazyLoad_fallback_leaves_pending :
    ∃ img, (initLazyLoad false [pendingImg "/img/a.jpg".toList]).imgs[0]? = some img ∧
      img.src = some "/img/a.jpg".toList ∧
      img.dataSrc = some "/img/a.jpg".toList ∧
      loaded ∉ img.classList :=
  ⟨{ pendingImg "/img/a.jpg".toList with
      src := some "/img/a.jpg".toList, srcHistory := ["/img/a.jpg".toList] },
    by decide, rfl, rfl, by decide⟩

/-! ## The string of a scroll offset -/

theorem bitLengthLoop_spec (fuel v : Nat) (hf : v ≤ fuel) (hv : v ≠ 0) :
    2 ^ (bitLengthLoop fuel v - 1) ≤ v ∧ v < 2 ^ bitLengthLoop fuel v := by
  induction fuel generalizing v with
  | zero => omega
  | succ fuel ih =>
    rw [bitLengthLoop, if_neg hv]
    by_cases h2 : v / 2 = 0
    · have hv1 : v = 1 := by omega
      subst hv1
      cases fuel <;> simp [bitLengthLoop]
    · obtain ⟨h1, h3⟩ := ih (v / 2) (by omega) h2
      have hpos : 0 < bitLengthLoop fuel (v / 2) := by
        rcases Nat.eq_zero_or_pos (bitLengthLoop fuel (v / 2)) with h0 | h0
        · rw [h0] at h3; omega
        · exact h0
      constructor
      · have e : bitLengthLoop fuel (v / 2) + 1 - 1 = (bitLengthLoop fuel (v / 2) - 1) + 1 := by
          omega
        rw [e, Nat.pow_succ]
        omega
      · rw [Nat.pow_succ]
        omega

theorem roundToDouble_ge (v : Nat) (h : 2 ^ 53 ≤ v) : 2 ^ 53 ≤ roundToDouble v := by
  have hv : v ≠ 0 := by
    intro h0; rw [h0] at h; norm_num at h
  obtain ⟨h1, h2⟩ := bitLengthLoop_spec v v (le_refl _) hv
  have hbl : 54 ≤ bitLength v := by
    by_contra hlt
    have hle : bitLength v ≤ 53 := by omega
    have : (2 : Nat) ^ bitLength v ≤ 2 ^ 53 := Nat.pow_le_pow_right (by norm_num) hle
    have h2' : v < 2 ^ bitLength v := h2
    omega
  have hq : 2 ^ 52 ≤ v / 2 ^ (bitLength v - 53) := by
    rw [Nat.le_div_iff_mul_le (Nat.pos_pow_of_pos _ (by norm_num))]
    rw [← Nat.pow_add]
    have e : 52 + (bitLength v - 53) = bitLength v - 1 := by omega
    rw [e]
    exact h1
  have hpow : 2 ≤ 2 ^ (bitLength v - 53) := by
    have : (2 : Nat) ^ 1 ≤ 2 ^ (bitLength v - 53) :=
      Nat.pow_le_pow_right (by norm_num) (by omega)
    simpa using this
  have hprod : 2 ^ 53 ≤ v / 2 ^ (bitLength v - 53) * 2 ^ (bitLength v - 53) := by
    calc 2 ^ 53 = 2 ^ 52 * 2 := by norm_num
      _ ≤ v / 2 ^ (bitLength v - 53) * 2 ^ (bitLength v - 53) := Nat.mul_le_mul hq hpow
  unfold roundToDouble
  rw [if_neg (by omega)]
  simp only
  split
  · calc 2 ^ 53 ≤ v / 2 ^ (bitLength v - 53) * 2 ^ (bitLength v - 53) := hprod
      _ ≤ (v / 2 ^ (bitLength v - 53) + 1) * 2 ^ (bitLength v - 53) :=
        Nat.mul_le_mul_right _ (Nat.le_succ _)
  · exact hprod

theorem roundToDouble_eq_safe (v x : Nat) (hx : x < 2 ^ 53) (h : roundToDouble v = x) :
    v = x := by
  by_cases hv : v < 2 ^ 53
  · rw [roundToDouble, if_pos hv] at h
    exact h
  · have := roundToDouble_ge v (by omega)
    omega

theorem roundToDouble_safe (x : Nat) (hx : x < 2 ^ 53) : roundToDouble x = x := by
  rw [roundToDouble, if_pos hx]

theorem mem_numeralsAt (x k m : Nat) (c : Nat × Nat) :
    c ∈ numeralsAt x k m ↔
      (c.1 = x / 10 ^ m ∨ c.1 = x / 10 ^ m + 1) ∧ c.2 = m ∧ 10 ^ (k - 1) ≤ c.1 ∧ c.1 < 10 ^ k ∧
        roundToDouble (c.1 * 10 ^ m) = x := by
  obtain ⟨s, m'⟩ := c
  simp only [numeralsAt, List.mem_map, List.mem_filter, List.mem_cons, List.mem_singleton,
    List.not_mem_nil, or_false, Bool.and_eq_true, decide_eq_true_eq, Prod.mk.injEq]
  constructor
  · rintro ⟨a, ⟨ha, ⟨h1, h2⟩, h3⟩, rfl, rfl⟩
    exact ⟨ha, rfl, h1, h2, h3⟩
  · rintro ⟨ha, rfl, h1, h2, h3⟩
    exact ⟨s, ⟨ha, ⟨h1, h2⟩, h3⟩, rfl, rfl⟩

theorem foldl_closer_mem (x : Nat) (cs : List (Nat × Nat)) (c : Nat × Nat) :
    cs.foldl (closer x) c ∈ c :: cs := by
  induction cs generalizing c with
  | nil => simp
  | cons b bs ih =>
    simp only [List.foldl_cons]
    have h := ih (closer x c b)
    rcases List.mem_cons.1 h with h | h
    · rw [h]
      unfold closer
      split <;> simp
    · exact List.mem_cons_of_mem _ (List.mem_cons_of_mem _ h)

theorem pickClosest_mem (x : Nat) (l : List (Nat × Nat)) (c : Nat × Nat)
    (h : pickClosest x l = some c) : c ∈ l := by
  cases l with
  | nil => cases h
  | cons b bs =>
    simp only [pickClosest, Option.some.injEq] at h
    rw [← h]
    exact foldl_closer_mem x bs b

theorem pickClosest_ne_none (x : Nat) (l : List (Nat × Nat)) (c : Nat × Nat) (h : c ∈ l) :
    pickClosest x l ≠ none := by
  cases l with
  | nil => cases h
  | cons b bs => simp [pickClosest]

theorem decimal_bracket (x : Nat) (h1 : 1 ≤ x) (h2 : x < 10 ^ 16) :
    ∃ i, i < 16 ∧ 10 ^ i ≤ x ∧ x < 10 ^ (i + 1) := by
  have hex : ∃ k, x < 10 ^ k := ⟨16, h2⟩
  have hspec := Nat.find_spec hex
  have hle : Nat.find hex ≤ 16 := Nat.find_min' hex h2
  have hpos : Nat.find hex ≠ 0 := by
    intro h0
    rw [h0] at hspec
    simp at hspec
    omega
  refine ⟨Nat.find hex - 1, by omega, ?_, ?_⟩
  · have := Nat.find_min hex (m := Nat.find hex - 1) (by omega)
    omega
  · have e : Nat.find hex - 1 + 1 = Nat.find hex := by omega
    rw [e]; exact hspec

theorem shortestNumeral_safe (x : Nat) (h1 : 1 ≤ x) (hx : x < 2 ^ 53) :
    ∃ s m, shortestNumeral x = some (s, m) ∧ 1 ≤ s ∧ s * 10 ^ m = x := by
  obtain ⟨i, hi, hlo, hhi⟩ := decimal_bracket x h1 (by
    have : (2 : Nat) ^ 53 < 10 ^ 16 := by norm_num
    omega)
  have hcand : (x, 0) ∈ numeralCandidates x (i + 1) := by
    simp only [numeralCandidates, List.mem_flatMap, List.mem_range]
    refine ⟨0, by omega, ?_⟩
    rw [mem_numeralsAt]
    simp only [pow_zero, Nat.div_one, Nat.add_sub_cancel, Nat.mul_one, true_or, true_and]
    exact ⟨hlo, hhi, roundToDouble_safe x hx⟩
  have hsome : shortestNumeral x ≠ none := by
    intro hnone
    unfold shortestNumeral at hnone
    rw [List.findSome?_eq_none_iff] at hnone
    exact pickClosest_ne_none x _ _ hcand (hnone i (List.mem_range.2 (by omega)))
  cases hres : shortestNumeral x with
  | none => exact absurd hres hsome
  | some c =>
    obtain ⟨s, m⟩ := c
    refine ⟨s, m, rfl, ?_⟩
    unfold shortestNumeral at hres
    obtain ⟨j, _, hj⟩ := List.exists_of_findSome?_eq_some hres
    have hmem := pickClosest_mem x _ _ hj
    simp only [numeralCandidates, List.mem_flatMap, List.mem_range] at hmem
    obtain ⟨m', _, hm'⟩ := hmem
    rw [mem_numeralsAt] at hm'
    obtain ⟨_, hm2, hlo', _, hround⟩ := hm'
    simp only at hm2 hlo' hround
    subst hm2
    have hs : 1 ≤ s := le_trans (Nat.one_le_pow _ _ (by norm_num)) hlo'
    exact ⟨hs, roundToDouble_eq_safe _ x hx hround⟩


theorem toDigitsCore_acc (fuel n : Nat) (ds : List Char) :
    Nat.toDigitsCore 10 fuel n ds = Nat.toDigitsCore 10 fuel n [] ++ ds := by
  induction fuel generalizing n ds with
  | zero => simp [Nat.toDigitsCore]
  | succ fuel ih =>
    simp only [Nat.toDigitsCore]
    split
    · simp
    · rw [ih (n / 10) (_ :: ds), ih (n / 10) [_]]
      simp

theorem toDigitsCore_fuel (fuel1 fuel2 n : Nat) (ds : List Char) (h1 : n < fuel1)
    (h2 : n < fuel2) : Nat.toDigitsCore 10 fuel1 n ds = Nat.toDigitsCore 10 fuel2 n ds := by
  induction fuel1 generalizing fuel2 n ds with
  | zero => omega
  | succ f1 ih =>
    cases fuel2 with
    | zero => omega
    | succ f2 =>
      simp only [Nat.toDigitsCore]
      split
      · rfl
      · exact ih f2 (n / 10) _ (by omega) (by omega)

theorem toDigits_mul_ten (n : Nat) (hn : 1 ≤ n) :
    Nat.toDigits 10 (n * 10) = Nat.toDigits 10 n ++ ['0'] := by
  have hdiv : n * 10 / 10 = n := by omega
  have hmod : n * 10 % 10 = 0 := by omega
  have hne : ¬ n = 0 := by omega
  unfold Nat.toDigits
  rw [Nat.toDigitsCore]
  simp only [hdiv, hmod, hne, if_false]
  rw [toDigitsCore_acc, toDigitsCore_fuel (n * 10) (n + 1) n [] (by omega) (by omega)]
  rfl

theorem toDigits_mul_pow (s m : Nat) (hs : 1 ≤ s) :
    Nat.toDigits 10 (s * 10 ^ m) = Nat.toDigits 10 s ++ List.replicate m '0' := by
  induction m with
  | zero => simp
  | succ m ih =>
    have hpos : 1 ≤ s * 10 ^ m := Nat.mul_pos hs (Nat.pos_pow_of_pos _ (by norm_num))
    rw [Nat.pow_succ, ← Nat.mul_assoc, toDigits_mul_ten _ hpos, ih, List.append_assoc]
    congr 1
    exact (List.replicate_succ' m '0').symm

theorem toDigits_length_le (x e : Nat) (hx : x < 10 ^ e) (he : 0 < e) :
    (Nat.toDigits 10 x).length ≤ e :=
  Nat.toDigitsCore_length 10 (by norm_num) (x + 1) x e hx he

theorem numberToString_safe (x : Nat) (hx : x < 2 ^ 53) :
    numberToString x = Nat.toDigits 10 x := by
  by_cases h0 : x = 0
  · subst h0; rfl
  · obtain ⟨s, m, hsn, hs, hval⟩ := shortestNumeral_safe x (by omega) hx
    have hdig : Nat.toDigits 10 x = Nat.toDigits 10 s ++ List.replicate m '0' := by
      rw [← hval]; exact toDigits_mul_pow s m hs
    have hlen : (Nat.toDigits 10 s).length + m ≤ 21 := by
      have h16 : (Nat.toDigits 10 x).length ≤ 16 :=
        toDigits_length_le x 16 (by
          have : (2 : Nat) ^ 53 < 10 ^ 16 := by norm_num
          omega) (by norm_num)
      rw [hdig, List.length_append, List.length_replicate] at h16
      omega
    unfold numberToString
    rw [if_neg h0, hsn]
    simp only
    rw [if_pos hlen, hdig]

theorem numberToString_eq_toString (n : Nat) (hn : n < 2 ^ 53) :
    numberToString n = (toString n).toList :=
  numberToString_safe n hn

/-! ## Paths and the reading position -/

theorem split_ne_nil (s : Str) (sep : Char) : split s sep ≠ [] := by
  cases s with
  | nil => simp [split]
  | cons c cs =>
    unfold split
    split
    · simp
    · split <;> simp

theorem split_no_sep (piece : Str) (sep : Char) (h : sep ∉ piece) :
    split piece sep = [piece] := by
  induction piece with
  | nil => rfl
  | cons c cs ih =>
    have hc : c ≠ sep := fun e => h (by rw [e]; exact List.mem_cons_self _ _)
    have hcs : sep ∉ cs := fun m => h (List.mem_cons_of_mem _ m)
    simp [split, hc, ih hcs]

theorem split_append_sep (piece rest : Str) (sep : Char) (h : sep ∉ piece) :
    split (piece ++ sep :: rest) sep = piece :: split rest sep := by
  induction piece with
  | nil => simp [split]
  | cons c cs ih =>
    have hc : c ≠ sep := fun e => h (by rw [e]; exact List.mem_cons_self _ _)
    have hcs : sep ∉ cs := fun m => h (List.mem_cons_of_mem _ m)
    simp [split, hc, ih hcs]

theorem split_cons_inv (s : Str) (sep : Char) (piece : Str) (r : List Str)
    (h : split s sep = piece :: r) (hr : r ≠ []) :
    ∃ u, s = piece ++ sep :: u ∧ split u sep = r := by
  induction s generalizing piece with
  | nil =>
    simp only [split, List.cons.injEq] at h
    exact absurd h.2.symm hr
  | cons c cs ih =>
    unfold split at h
    split at h
    · rename_i hc
      simp only [List.cons.injEq] at h
      exact ⟨cs, by rw [← h.1, hc]; rfl, h.2⟩
    · split at h
      · rename_i hnil
        exact absurd hnil (split_ne_nil cs sep)
      · rename_i q qs hq
        simp only [List.cons.injEq] at h
        obtain ⟨u, hu, hsplit⟩ := ih q (by rw [hq, h.2]) 
        exact ⟨u, by rw [← h.1, hu]; rfl, hsplit⟩

theorem includes_of_startsWith (sub rest : Str) : includes (sub ++ rest) sub = true := by
  have hp : sub.isPrefixOf (sub ++ rest) = true := by
    rw [List.isPrefixOf_iff_prefix]
    exact List.prefix_append sub rest
  cases h : sub ++ rest with
  | nil => rw [h] at hp; simpa [includes] using hp
  | cons c cs => rw [h] at hp; simp [includes, hp]

theorem getItem_setItem_same (key value : Str) (ls : Storage) :
    getItem key (setItem key value ls) = some value := by
  simp [setItem, getItem]

theorem getItem_setItem_other (key key' value : Str) (ls : Storage) (h : key ≠ key') :
    getItem key' (setItem key value ls) = getItem key' ls := by
  simp [setItem, getItem, h]

theorem split_reader_path (slug chapter : Str) (hs : '/' ∉ slug) (hc : '/' ∉ chapter) :
    split (mangaMarker ++ slug ++ "/".toList ++ chapter) '/'
      = [[], "manga".toList, slug, chapter] := by
  have e : mangaMarker ++ slug ++ "/".toList ++ chapter
      = [] ++ '/' :: ("manga".toList ++ '/' :: (slug ++ '/' :: chapter)) := by
    simp [mangaMarker]
  rw [e, split_append_sep [] _ '/' (by simp),
    split_append_sep "manga".toList _ '/' (by decide),
    split_append_sep slug _ '/' hs, split_no_sep chapter '/' hc]

theorem scrollEvent_reader_path (slug chapter : Str) (n : Nat) (ls : Storage)
    (hs : '/' ∉ slug) (hc : '/' ∉ chapter) :
    scrollEvent (mangaMarker ++ slug ++ "/".toList ++ chapter) n ls
      = (readingKey slug chapter, numberToString n) :: ls := by
  have hinc : autoSaveRegistered (mangaMarker ++ slug ++ "/".toList ++ chapter) = true := by
    unfold autoSaveRegistered
    rw [List.append_assoc, List.append_assoc]
    exact includes_of_startsWith _ _
  unfold scrollEvent
  rw [if_pos hinc]
  unfold autoSaveOnScroll
  rw [split_reader_path slug chapter hs hc]
  simp [saveReadingPosition, setItem]

/-- C6 as stated fails: the offset 2^60 is an integer and the value of a double,
and a scroll event at it on `/manga/one-piece/chapter-5` stores
`1152921504606847000` under `reading_one-piece_chapter-5`, which is not the
decimal numeral of 2^60, `1152921504606846976`. -/
theorem reading_position_counterexample :
    isDoubleValue (2 ^ 60) = true ∧
      scrollEvent "/manga/one-piece/chapter-5".toList (2 ^ 60) []
        = [("reading_one-piece_chapter-5".toList, "1152921504606847000".toList)] ∧
      (toString (2 ^ 60)).toList = "1152921504606846976".toList ∧
      getReadingPosition "one-piece".toList "chapter-5".toList
          (scrollEvent "/manga/one-piece/chapter-5".toList (2 ^ 60) [])
        ≠ some (toString (2 ^ 60)).toList := by
  decide

/-- C6, amended. On the path `/manga/{slug}/{chapterSlug}` (slugs without a
slash), a scroll event at an integer offset `n` below 2^53 makes one `setItem`
call that stores the decimal numeral of `n` under the key
`reading_{slug}_{chapterSlug}`; `getReadingPosition(slug, chapterSlug)` then
returns that numeral; and a later scroll event at `n'` overwrites it. -/
theorem reading_position_saved (slug chapter : Str) (n n' : Nat) (ls : Storage)
    (hs : '/' ∉ slug) (hc : '/' ∉ chapter) (hn : n < 2 ^ 53) (hn' : n' < 2 ^ 53) :
    scrollEvent ("/manga/".toList ++ slug ++ "/".toList ++ chapter) n ls
        = ("reading_".toList ++ slug ++ "_".toList ++ chapter, (toString n).toList) :: ls ∧
      getItem ("reading_".toList ++ slug ++ "_".toList ++ chapter)
          (scrollEvent ("/manga/".toList ++ slug ++ "/".toList ++ chapter) n ls)
        = some (toString n).toList ∧
      getReadingPosition slug chapter
          (scrollEvent ("/manga/".toList ++ slug ++ "/".toList ++ chapter) n ls)
        = some (toString n).toList ∧
      getReadingPosition slug chapter
          (scrollEvent ("/manga/".toList ++ slug ++ "/".toList ++ chapter) n'
            (scrollEvent ("/manga/".toList ++ slug ++ "/".toList ++ chapter) n ls))
        = some (toString n').toList := by
  have h := scrollEvent_reader_path slug chapter
  simp only [mangaMarker, readingKey] at h
  have e1 := h n ls hs hc
  have e2 := h n' (scrollEvent ("/manga/".toList ++ slug ++ "/".toList ++ chapter) n ls) hs hc
  rw [numberToString_eq_toString n hn] at e1
  rw [numberToString_eq_toString n' hn'] at e2
  refine ⟨e1, ?_, ?_, ?_⟩
  · rw [e1]; simp [getItem]
  · rw [e1]; simp [getReadingPosition, readingKey, getItem]
  · rw [e2]; simp [getReadingPosition, readingKey, getItem]

/-- Witness of C6 (amended): the scenario of the specification, the reader URL
`/manga/one-piece/chapter-5` at the scroll offset 1200. -/
theorem reading_position_saved_witness :
    scrollEvent "/manga/one-piece/chapter-5".toList 1200 []
        = [("reading_one-piece_chapter-5".toList, "1200".toList)] ∧
      getReadingPosition "one-piece".toList "chapter-5".toList
          (scrollEvent "/manga/one-piece/chapter-5".toList 1200 [])
        = some "1200".toList :=
  ⟨(reading_position_saved "one-piece".toList "chapter-5".toList 1200 0 []
      (by decide) (by decide) (by decide) (by decide)).1,
    (reading_position_saved "one-piece".toList "chapter-5".toList 1200 0 []
      (by decide) (by decide) (by decide) (by decide)).2.2.1⟩

theorem isReaderShape_split (pathname : Str) (h : isReaderShape pathname = true) :
    ∃ slug chapterSlug tail, split pathname '/'
      = [] :: "manga".toList :: slug :: chapterSlug :: tail := by
  unfold isReaderShape at h
  split at h
  · rename_i first second slug chapterSlug tail heq
    simp only [Bool.and_eq_true, decide_eq_true_eq] at h
    obtain ⟨⟨⟨h1, h2⟩, _⟩, _⟩ := h
    exact ⟨slug, chapterSlug, tail, by rw [heq, h1, h2]⟩
  · exact absurd h (by simp)

theorem isReaderShape_active (pathname : Str) (h : isReaderShape pathname = true) :
    includes pathname mangaMarker = true ∧ 4 ≤ (split pathname '/').length := by
  obtain ⟨slug, chapterSlug, tail, hsplit⟩ := isReaderShape_split pathname h
  refine ⟨?_, by rw [hsplit]; simp⟩
  obtain ⟨u, hu, hsplit1⟩ := split_cons_inv pathname '/' [] _ hsplit (by simp)
  obtain ⟨v, hv, _⟩ := split_cons_inv u '/' "manga".toList _ hsplit1 (by simp)
  have e : pathname = mangaMarker ++ v := by
    rw [hu, hv]; simp [mangaMarker]
  rw [e]
  exact includes_of_startsWith _ _

/-- C7 as stated fails: the path `/user/manga/x` does not have the reader
shape (its first segment is `user`), yet a scroll event on it writes to storage
(under the key built from the pieces `manga` and `x`) and the progress bar is
created. -/
theorem reader_gate_counterexample :
    isReaderShape "/user/manga/x".toList = false ∧
      scrollEvent "/user/manga/x".toList 7 [] = [("reading_manga_x".toList, "7".toList)] ∧
      readingProgressStarted "/user/manga/x".toList = true := by
  decide

/-- C7, amended. For every path, a scroll event writes to storage and the
progress bar is created exactly when the path contains the text `/manga/` and
splits on the slash into at least four pieces; the key is then built from the
pieces 2 and 3, and otherwise both features are inert. Every path of the reader
shape `/manga/{slug}/{chapterSlug}/...` meets that condition. -/
theorem reader_features_gate (pathname : Str) (y : Nat) (ls : Storage) :
    (includes pathname mangaMarker = true ∧ 4 ≤ (split pathname '/').length →
        scrollEvent pathname y ls
            = (readingKey ((split pathname '/').getD 2 []) ((split pathname '/').getD 3 []),
                numberToString y) :: ls ∧
          readingProgressStarted pathname = true) ∧
      (¬ (includes pathname mangaMarker = true ∧ 4 ≤ (split pathname '/').length) →
        scrollEvent pathname y ls = ls ∧ readingProgressStarted pathname = false) ∧
      (isReaderShape pathname = true →
        includes pathname mangaMarker = true ∧ 4 ≤ (split pathname '/').length) := by
  refine ⟨?_, ?_, isReaderShape_active pathname⟩
  · rintro ⟨hinc, hlen⟩
    have hlen' : (split pathname '/').length > 3 := hlen
    refine ⟨?_, by simp [readingProgressStarted, hinc, hlen']⟩
    unfold scrollEvent autoSaveRegistered
    rw [if_pos hinc]
    unfold autoSaveOnScroll
    simp only [ge_iff_le, hlen, if_true, saveReadingPosition, setItem]
  · intro hnot
    by_cases hinc : includes pathname mangaMarker = true
    · have hlen : ¬ 4 ≤ (split pathname '/').length := fun hl => hnot ⟨hinc, hl⟩
      have hlen' : ¬ (split pathname '/').length > 3 := hlen
      refine ⟨?_, by simp [readingProgressStarted, hlen']⟩
      unfold scrollEvent autoSaveRegistered
      rw [if_pos hinc]
      unfold autoSaveOnScroll
      simp only [ge_iff_le, hlen, if_false]
    · refine ⟨?_, by simp [readingProgressStarted, hinc]⟩
      unfold scrollEvent autoSaveRegistered
      rw [if_neg hinc]

/-- Witness of C7 (amended): the reader path `/manga/one-piece/chapter-5`
is active, the path `/manga/` is inert. -/
theorem reader_features_gate_witness :
    isReaderShape "/manga/one-piece/chapter-5".toList = true ∧
      (includes "/manga/one-piece/chapter-5".toList mangaMarker = true ∧
        4 ≤ (split "/manga/one-piece/chapter-5".toList '/').length) ∧
      (scrollEvent "/manga/".toList 9 [] = [] ∧
        readingProgressStarted "/manga/".toList = false) :=
  ⟨by decide,
    (reader_features_gate "/manga/one-piece/chapter-5".toList 0 []).2.2 (by decide),
    (reader_features_gate "/manga/".toList 9 []).2.1 (by decide)⟩

theorem append_sep_inj (x : Char) (a a' b b' : Str) (ha : x ∉ a) (ha' : x ∉ a')
    (h : a ++ x :: b = a' ++ x :: b') : a = a' ∧ b = b' := by
  induction a generalizing a' with
  | nil =>
    cases a' with
    | nil => simpa using h
    | cons c cs =>
      simp only [List.nil_append, List.cons_append, List.cons.injEq] at h
      exact absurd (by rw [h.1]; exact List.mem_cons_self _ _) ha'
  | cons c cs ih =>
    cases a' with
    | nil =>
      simp only [List.nil_append, List.cons_append, List.cons.injEq] at h
      exact absurd (by rw [← h.1]; exact List.mem_cons_self _ _) ha
    | cons c' cs' =>
      simp only [List.cons_append, List.cons.injEq] at h
      obtain ⟨h1, h2⟩ := ih cs' (fun m => ha (List.mem_cons_of_mem _ m))
        (fun m => ha' (List.mem_cons_of_mem _ m)) h.2
      exact ⟨by rw [h.1, h1], h2⟩

theorem append_sep_inj_right (x : Char) (a a' b b' : Str) (hb : x ∉ b) (hb' : x ∉ b')
    (h : a ++ x :: b = a' ++ x :: b') : a = a' ∧ b = b' := by
  have hr : b.reverse ++ x :: a.reverse = b'.reverse ++ x :: a'.reverse := by
    have := congrArg List.reverse h
    simpa using this
  obtain ⟨h1, h2⟩ := append_sep_inj x b.reverse b'.reverse a.reverse a'.reverse
    (by simpa using hb) (by simpa using hb') hr
  exact ⟨List.reverse_injective h2, List.reverse_injective h1⟩

theorem readingKey_eq_iff (m c m' c' : Str) :
    readingKey m c = readingKey m' c' ↔ m ++ '_' :: c = m' ++ '_' :: c' := by
  simp [readingKey]

/-- C8 as stated fails: the pairs (`a_b`, `c`) and (`a`, `b_c`) differ but
share the key `reading_a_b_c`, so saving a position for the first changes what
`getReadingPosition` returns for the second. -/
theorem readingKey_collision :
    (("a_b".toList, "c".toList) : Str × Str) ≠ ("a".toList, "b_c".toList) ∧
      readingKey "a_b".toList "c".toList = readingKey "a".toList "b_c".toList ∧
      getReadingPosition "a".toList "b_c".toList [] = none ∧
      getReadingPosition "a".toList "b_c".toList
          (saveReadingPosition "a_b".toList "c".toList 5 []) = some "5".toList := by
  decide

/-- C8, amended. For identifiers of which either both manga identifiers or both
chapter identifiers contain no underscore, distinct pairs have distinct keys,
and saving a position for one pair leaves what `getReadingPosition` returns for
the other unchanged. -/
theorem readingKey_scoped (m c m' c' : Str) (p : Nat) (ls : Storage)
    (hsep : ('_' ∉ m ∧ '_' ∉ m') ∨ ('_' ∉ c ∧ '_' ∉ c'))
    (hne : (m, c) ≠ (m', c')) :
    readingKey m c ≠ readingKey m' c' ∧
      getReadingPosition m' c' (saveReadingPosition m c p ls) = getReadingPosition m' c' ls := by
  have hkey : readingKey m c ≠ readingKey m' c' := by
    intro heq
    rw [readingKey_eq_iff] at heq
    have : m = m' ∧ c = c' := by
      rcases hsep with ⟨h1, h2⟩ | ⟨h1, h2⟩
      · exact append_sep_inj '_' m m' c c' h1 h2 heq
      · exact append_sep_inj_right '_' m m' c c' h1 h2 heq
    exact hne (by rw [this.1, this.2])
  exact ⟨hkey, getItem_setItem_other _ _ _ ls hkey⟩

/-- Witness of C8 (amended): two chapters of one manga. -/
theorem readingKey_scoped_witness :
    readingKey "one-piece".toList "chapter-5".toList
        ≠ readingKey "one-piece".toList "chapter-6".toList ∧
      getReadingPosition "one-piece".toList "chapter-6".toList
          (saveReadingPosition "one-piece".toList "chapter-5".toList 1200 [])
        = getReadingPosition "one-piece".toList "chapter-6".toList [] :=
  readingKey_scoped "one-piece".toList "chapter-5".toList "one-piece".toList
    "chapter-6".toList 1200 [] (Or.inl ⟨by decide, by decide⟩) (by decide)

/-! ## Cookies -/

theorem substring_zero (s : Str) (k : Nat) : substring s 0 k = s.take k := by
  simp only [substring, Nat.zero_min, List.drop_zero, Nat.zero_le, max_eq_right, Nat.sub_zero]
  rcases Nat.le_total k s.length with h | h
  · rw [Nat.min_eq_left h]
  · rw [Nat.min_eq_right h, List.take_of_length_le h, List.take_of_length_le (le_refl _)]

theorem substringFrom_eq_drop (s : Str) (k : Nat) : substringFrom s k = s.drop k := by
  simp only [substringFrom, substring, Nat.min_self]
  rcases Nat.le_total k s.length with h | h
  · rw [Nat.min_eq_left h, Nat.min_eq_left h, max_eq_right h]
    rw [List.take_of_length_le (by simp)]
  · rw [Nat.min_eq_right h, Nat.min_self, max_self, Nat.sub_self, List.take_zero,
      List.drop_of_length_le h]

theorem cookie_test_iff (name cookie : Str) :
    substring cookie 0 (name.length + 1) = name ++ ['='] ↔ cookieMatches name cookie = true := by
  rw [substring_zero, cookieMatches, List.isPrefixOf_iff_prefix, List.prefix_iff_eq_take]
  simp only [List.length_append, List.length_singleton]
  exact eq_comm

theorem decodeLoop_plain (s : Str) (h : '%' ∉ s) : decodeLoop s 0 0 0 0 = .ok s := by
  induction s with
  | nil => rfl
  | cons c cs ih =>
    have hc : c ≠ '%' := fun e => h (by rw [e]; exact List.mem_cons_self _ _)
    have hcs : '%' ∉ cs := fun m => h (List.mem_cons_of_mem _ m)
    simp only [decodeLoop, ne_eq, not_true_eq_false, if_false, if_neg hc, if_true, ih hcs]
    rfl

theorem decodeURIComponent_plain (s : Str) (h : '%' ∉ s) : decodeURIComponent s = .ok s :=
  decodeLoop_plain s h

theorem getCookieLoop_spec (name : Str) (pieces : List Str)
    (hvalue : ∀ pair ∈ pieces.map trim, cookieMatches name pair = true →
      '%' ∉ pair.drop (name.length + 1)) :
    getCookieLoop name pieces
      = .ok (((pieces.map trim).find? (cookieMatches name)).map
          (fun pair => pair.drop (name.length + 1))) := by
  induction pieces with
  | nil => rfl
  | cons piece rest ih =>
    simp only [getCookieLoop, List.map_cons, List.find?_cons]
    by_cases hm : cookieMatches name (trim piece) = true
    · rw [if_pos ((cookie_test_iff name (trim piece)).2 hm), hm, substringFrom_eq_drop,
        decodeURIComponent_plain _ (hvalue (trim piece) (by simp) hm)]
      rfl
    · rw [if_neg (fun h => hm ((cookie_test_iff name (trim piece)).1 h))]
      have hf : cookieMatches name (trim piece) = false := by simpa using hm
      rw [hf]
      exact ih (fun pair hp => hvalue pair (by
        simp only [List.map_cons, List.mem_cons]; exact Or.inr hp))

theorem takeWhile_append_stop_length (q : Char → Bool) (a b : Str) (x : Char)
    (hx : q x = false) : ((a ++ x :: b).takeWhile q).length ≤ a.length := by
  induction a with
  | nil => simp [List.takeWhile, hx]
  | cons c cs ih =>
    simp only [List.cons_append, List.takeWhile]
    cases q c with
    | true => simpa using ih
    | false => simp

theorem cookieName_length_of_matches (name pair : Str) (h : cookieMatches name pair = true) :
    (cookieName pair).length ≤ name.length := by
  rw [cookieMatches, List.isPrefixOf_iff_prefix] at h
  obtain ⟨v, rfl⟩ := h
  have e : name ++ ['='] ++ v = name ++ '=' :: v := by simp
  rw [cookieName, e]
  exact takeWhile_append_stop_length _ name v '=' (by simp)

theorem takeWhile_append_stop (q : Char → Bool) (a b : Str) (x : Char)
    (ha : ∀ c ∈ a, q c = true) (hx : q x = false) : (a ++ x :: b).takeWhile q = a := by
  induction a with
  | nil => simp [List.takeWhile, hx]
  | cons c cs ih =>
    rw [List.cons_append, List.takeWhile_cons, ha c (List.mem_cons_self _ _), if_pos rfl,
      ih (fun c' hc' => ha c' (List.mem_cons_of_mem _ hc'))]

theorem takeWhile_stops_at (q : Char → Bool) (l : Str) (x : Char) (hx : x ∈ l)
    (hq : q x = false) : ∃ c v, l = l.takeWhile q ++ c :: v ∧ q c = false := by
  induction l with
  | nil => cases hx
  | cons a as ih =>
    cases hqa : q a with
    | false => exact ⟨a, as, by rw [List.takeWhile_cons, hqa]; simp, hqa⟩
    | true =>
      have hx' : x ∈ as := by
        rcases List.mem_cons.1 hx with rfl | h
        · rw [hq] at hqa; cases hqa
        · exact h
      obtain ⟨c, v, hl, hc⟩ := ih hx'
      refine ⟨c, v, ?_, hc⟩
      rw [List.takeWhile_cons, hqa, if_pos rfl, List.cons_append, ← hl]

theorem cookieMatches_iff_name (name pair : Str) (hname : '=' ∉ name) :
    cookieMatches name pair = true ↔ ('=' ∈ pair ∧ cookieName pair = name) := by
  constructor
  · intro h
    rw [cookieMatches, List.isPrefixOf_iff_prefix] at h
    obtain ⟨v, rfl⟩ := h
    refine ⟨by simp, ?_⟩
    have e : name ++ ['='] ++ v = name ++ '=' :: v := by simp
    rw [cookieName, e]
    apply takeWhile_append_stop
    · intro c hc
      have : c ≠ '=' := by
        rintro rfl
        exact hname hc
      simpa using this
    · simp
  · rintro ⟨hmem, hn⟩
    rw [cookieMatches, List.isPrefixOf_iff_prefix]
    obtain ⟨c, v, hl, hc⟩ :=
      takeWhile_stops_at (fun c => decide (c ≠ '=')) pair '=' hmem (by simp)
    have hceq : c = '=' := by simpa using hc
    refine ⟨v, ?_⟩
    have hn' : pair.takeWhile (fun c => decide (c ≠ '=')) = name := hn
    rw [hn', hceq] at hl
    rw [hl]; simp

/-- C10. When the value of every matching pair is free of the percent sign,
`getCookie(name)` returns the text after the name and the equals sign of the
first pair of the cookie string whose trimmed text starts with the name followed
by the equals sign, and `null` when there is none; an empty cookie string gives
`null`; a pair whose cookie name has `name` as a proper prefix or a proper
suffix never passes the test; and for a name without an equals sign the test is
passed exactly by the pairs whose cookie name is `name`. -/
theorem getCookie_spec (name documentCookie : Str)
    (hvalue : ∀ pair ∈ cookiePairs documentCookie, cookieMatches name pair = true →
      '%' ∉ pair.drop (name.length + 1)) :
    getCookie name documentCookie = .ok (firstCookieValue name documentCookie) ∧
      getCookie name [] = .ok none ∧
      (∀ pair extra : Str, extra ≠ [] →
        cookieName pair = name ++ extra ∨ cookieName pair = extra ++ name →
        cookieMatches name pair = false) ∧
      ('=' ∉ name → ∀ pair : Str,
        (cookieMatches name pair = true ↔ ('=' ∈ pair ∧ cookieName pair = name))) := by
  refine ⟨?_, by simp [getCookie], ?_, fun hname pair => cookieMatches_iff_name name pair hname⟩
  · unfold getCookie
    split
    · exact getCookieLoop_spec name _ hvalue
    · rename_i hempty
      have he : documentCookie = [] := by simpa using hempty
      subst he
      have : firstCookieValue name [] = none := by
        simp [firstCookieValue, cookiePairs, split, trim, cookieMatches]
      rw [this]
  · intro pair extra hextra hname
    cases hm : cookieMatches name pair with
    | false => rfl
    | true =>
      exfalso
      have hlen := cookieName_length_of_matches name pair hm
      have hpos : 0 < extra.length := List.length_pos.2 hextra
      rcases hname with h | h <;> rw [h, List.length_append] at hlen <;> omega

/-- Witness of C10: the token is found behind another cookie, and the cookies
`csrftoken2` and `xcsrftoken` are passed over. -/
theorem getCookie_spec_witness :
    getCookie csrftoken "xcsrftoken=1; csrftoken2=2; csrftoken=abc; csrftoken=def".toList
        = .ok (some "abc".toList) ∧
      cookieMatches csrftoken "csrftoken2=2".toList = false ∧
      cookieMatches csrftoken "xcsrftoken=1".toList = false :=
  have h := getCookie_spec csrftoken
    "xcsrftoken=1; csrftoken2=2; csrftoken=abc; csrftoken=def".toList (by decide)
  ⟨h.1.trans (by decide), h.2.2.1 "csrftoken2=2".toList "2".toList (by decide) (Or.inl (by decide)),
    h.2.2.1 "xcsrftoken=1".toList "x".toList (by decide) (Or.inr (by decide))⟩

/-! ## The follow action -/

/-- The `fetch` call of `handleFollowAction` for a manga identifier and the
value read from the cookie. -/
theorem handleFollowAction_request (mangaId : Str) (isFollowing : Bool) (documentCookie : Str)
    (outcome : FetchOutcome) (token : Option Str)
    (hcookie : getCookie csrftoken documentCookie = .ok token) :
    (handleFollowAction mangaId isFollowing documentCookie outcome).requests
        = [{ url := "/follow/".toList ++ mangaId ++ "/".toList
             method := "POST".toList
             headers := [("X-CSRFToken".toList, token),
                         ("Content-Type".toList, some "application/json".toList)] }] ∧
      (handleFollowAction mangaId isFollowing documentCookie outcome).thrown = none := by
  unfold handleFollowAction
  rw [hcookie]
  cases outcome with
  | rejected => exact ⟨rfl, rfl⟩
  | resolved json =>
    cases json with
    | none => exact ⟨rfl, rfl⟩
    | some data =>
      simp only
      cases readSuccess data with
      | error e => exact ⟨rfl, rfl⟩
      | ok success =>
        simp only
        split <;> exact ⟨rfl, rfl⟩

/-- C9 as stated fails: with the cookie string `csrftoken=%`, reading the
token raises a `URIError` while the options of `fetch` are built, so for the
manga 42 no request is sent, the exception leaves `handleFollowAction`, and the
page is not reloaded although the response would carry `success = true`. -/
theorem follow_action_counterexample :
    handleFollowAction "42".toList true "csrftoken=%".toList
        (.resolved (some (.obj [("success".toList, .bool true)])))
      = { requests := [], reloads := 0, logged := 0, thrown := some .uriError } := by
  decide

/-- C9, amended. Whenever reading the `csrftoken` cookie does not raise (its
result is `token`), `handleFollowAction` calls `fetch` once, with the method
POST on `/follow/{mangaId}/`, and no exception leaves it; the page is reloaded
at most once, and exactly when the response parses to a value other than `null`
whose `success` is truthy: once without logging for `success = true`, never for
`success = false`, and never when the request or the parsing fails or the value
is `null`, which is logged once. -/
theorem follow_action (mangaId : Str) (isFollowing : Bool) (documentCookie : Str)
    (outcome : FetchOutcome) (token : Option Str)
    (hcookie : getCookie csrftoken documentCookie = .ok token) :
    (handleFollowAction mangaId isFollowing documentCookie outcome).requests
        = [{ url := "/follow/".toList ++ mangaId ++ "/".toList
             method := "POST".toList
             headers := [("X-CSRFToken".toList, token),
                         ("Content-Type".toList, some "application/json".toList)] }] ∧
      (handleFollowAction mangaId isFollowing documentCookie outcome).thrown = none ∧
      (handleFollowAction mangaId isFollowing documentCookie outcome).reloads ≤ 1 ∧
      ((handleFollowAction mangaId isFollowing documentCookie outcome).reloads = 1 ↔
        ∃ data v, outcome = .resolved (some data) ∧ readSuccess data = .ok (some v) ∧
          v.truthy = true) ∧
      (∀ members, outcome = .resolved (some (.obj members)) →
        lookupMember "success".toList members = some (.bool true) →
        (handleFollowAction mangaId isFollowing documentCookie outcome).reloads = 1 ∧
          (handleFollowAction mangaId isFollowing documentCookie outcome).logged = 0) ∧
      (∀ members, outcome = .resolved (some (.obj members)) →
        lookupMember "success".toList members = some (.bool false) →
        (handleFollowAction mangaId isFollowing documentCookie outcome).reloads = 0) ∧
      (outcome = .rejected ∨ outcome = .resolved none ∨ outcome = .resolved (some .null) →
        (handleFollowAction mangaId isFollowing documentCookie outcome).reloads = 0 ∧
          (handleFollowAction mangaId isFollowing documentCookie outcome).logged = 1) := by
  obtain ⟨hreq, hthrown⟩ :=
    handleFollowAction_request mangaId isFollowing documentCookie outcome token hcookie
  refine ⟨hreq, hthrown, ?_, ?_, ?_, ?_, ?_⟩
  · unfold handleFollowAction
    rw [hcookie]
    cases outcome with
    | rejected => simp
    | resolved json =>
      cases json with
      | none => simp
      | some data =>
        simp only
        cases readSuccess data with
        | error e => simp
        | ok success =>
          simp only
          split <;> simp
  · unfold handleFollowAction
    rw [hcookie]
    cases outcome with
    | rejected => simp
    | resolved json =>
      cases json with
      | none => simp
      | some data =>
        simp only
        cases hrs : readSuccess data with
        | error e =>
          simp only [Nat.zero_ne_one, false_iff]
          rintro ⟨data', v', h1, h2, _⟩
          simp only [FetchOutcome.resolved.injEq, Option.some.injEq] at h1
          subst h1
          rw [hrs] at h2
          cases h2
        | ok success =>
          cases success with
          | none =>
            simp only [Option.map_none', Option.getD_none, Bool.false_eq_true, if_false,
              Nat.zero_ne_one, false_iff]
            rintro ⟨data', v', h1, h2, _⟩
            simp only [FetchOutcome.resolved.injEq, Option.some.injEq] at h1
            subst h1
            rw [hrs] at h2
            cases h2
          | some v =>
            cases hv : v.truthy with
            | true =>
              simp only [Option.map_some', Option.getD_some, hv, if_true, true_iff]
              exact ⟨data, v, rfl, hrs, hv⟩
            | false =>
              simp only [Option.map_some', Option.getD_some, hv, Bool.false_eq_true, if_false,
                Nat.zero_ne_one, false_iff]
              rintro ⟨data', v', h1, h2, h3⟩
              simp only [FetchOutcome.resolved.injEq, Option.some.injEq] at h1
              subst h1
              rw [hrs] at h2
              simp only [Except.ok.injEq, Option.some.injEq] at h2
              subst h2
              rw [hv] at h3
              cases h3
  · intro members hout hmem
    subst hout
    unfold handleFollowAction
    rw [hcookie]
    simp only [readSuccess, hmem, Option.map_some', Option.getD_some, Json.truthy, if_true]
    exact ⟨trivial, trivial⟩
  · intro members hout hmem
    subst hout
    unfold handleFollowAction
    rw [hcookie]
    simp only [readSuccess, hmem, Option.map_some', Option.getD_some, Json.truthy,
      Bool.false_eq_true, if_false]
  · intro hout
    unfold handleFollowAction
    rw [hcookie]
    rcases hout with h | h | h <;> subst h <;> simp [readSuccess]

/-- Witness of C9 (amended): the scenario of the specification, the manga 42
with a plain token cookie and the response `success = true`. -/
theorem follow_action_witness :
    getCookie csrftoken "csrftoken=abc".toList = .ok (some "abc".toList) ∧
      (handleFollowAction "42".toList true "csrftoken=abc".toList
          (.resolved (some (.obj [("success".toList, .bool true)])))).requests
        = [{ url := "/follow/42/".toList
             method := "POST".toList
             headers := [("X-CSRFToken".toList, some "abc".toList),
                         ("Content-Type".toList, some "application/json".toList)] }] ∧
      (handleFollowAction "42".toList true "csrftoken=abc".toList
          (.resolved (some (.obj [("success".toList, .bool true)])))).reloads = 1 :=
  have h := follow_action "42".toList true "csrftoken=abc".toList
    (.resolved (some (.obj [("success".toList, .bool true)]))) (some "abc".toList) (by decide)
  ⟨by decide, h.1, (h.2.2.2.2.1 _ rfl rfl).1⟩

end WebManga
